import Mathlib

/-!
Shallow embedding of the MIPS two-pass assembler back end
(src/tables.c, src/translate_utils.c, src/translate.c).

Modelling conventions:
- C strings become Lean `String`; a `char**` argument array becomes
  `List String` (NULL entries are not representable, so the defensive
  NULL checks of the C code are dropped).
- `FILE*` output is modelled by returning the list of items written:
  pass one writes instruction lines (`List String`), pass two writes
  32-bit words (`List Nat`, each < 2^32); `write_inst_hex` renders a
  word as hex, which no claim depends on, so the word itself is kept.
- Machine integers are `Int`/`Nat` with explicit reductions mod 2^32
  where the C converts to `uint32_t`; `long` is 64-bit (LP64), so
  `strtol` clamps to [-2^63, 2^63-1].
- Functions that mutate a `SymbolTable*` return the new table.
-/

namespace Asm

/-! ## translate_utils.c -/

/-- C `isspace` in the default locale (space, \t, \n, \v, \f, \r). -/
def isCSpace (c : Char) : Bool :=
  c = ' ' ∨ c = '\t' ∨ c = '\n' ∨ c = '\x0b' ∨ c = '\x0c' ∨ c = '\r'

/-- Value of a digit character in the given base, as `strtol` accepts it
(`0`-`9`, `a`-`z`, `A`-`Z`), or `none` if the character is not a digit
of that base. -/
def digitVal? (base : Nat) (c : Char) : Option Nat :=
  let v : Option Nat :=
    if '0' ≤ c ∧ c ≤ '9' then some (c.toNat - '0'.toNat)
    else if 'a' ≤ c ∧ c ≤ 'z' then some (c.toNat - 'a'.toNat + 10)
    else if 'A' ≤ c ∧ c ≤ 'Z' then some (c.toNat - 'A'.toNat + 10)
    else none
  match v with
  | some d => if d < base then some d else none
  | none => none

/-- Accumulate digits of `base` from the front of the list, stopping at
the first non-digit (as `strtol` does; the suffix is what `endptr`
points at, which `translate_num` ignores). -/
def readDigits (base : Nat) : List Char → Nat → Nat
  | [], acc => acc
  | c :: cs, acc =>
    match digitVal? base c with
    | some d => readDigits base cs (acc * base + d)
    | none => acc

def LONG_MAX : Int := 2 ^ 63 - 1
def LONG_MIN : Int := -(2 ^ 63)

/-- Glibc `strtol(str, &end, 0)` on an LP64 system: skip C whitespace,
optional sign, base auto-detection (`0x`/`0X` followed by a hex digit
means base 16, a leading `0` means base 8, otherwise base 10), longest
digit prefix, clamping to `[LONG_MIN, LONG_MAX]` on overflow.  If no
digits can be consumed it returns 0 ("no conversion"). -/
def strtol (s : String) : Int :=
  let cs := s.data.dropWhile isCSpace
  let (neg, cs) :=
    match cs with
    | '-' :: rest => (true, rest)
    | '+' :: rest => (false, rest)
    | _ => (false, cs)
  let (base, cs) :=
    match cs with
    | '0' :: c :: rest =>
      let hexDigitFollows : Bool :=
        match rest with
        | r :: _ => (digitVal? 16 r).isSome
        | [] => false
      if (c = 'x' ∨ c = 'X') ∧ hexDigitFollows then
        (16, rest)
      else
        (8, c :: rest)
    | cs => (10, cs)
  let mag := readDigits base cs 0
  if neg then
    if (mag : Int) ≤ 2 ^ 63 then -(mag : Int) else LONG_MIN
  else
    if (mag : Int) ≤ 2 ^ 63 - 1 then (mag : Int) else LONG_MAX

/-- `translate_num` (src/translate_utils.c:59-74): convert via
`strtol(str, &end, 0)`, then check `lower_bound <= num <= upper_bound`.
The stored output is modelled by `some`; the error return -1 (which
leaves the output location untouched) by `none`.  The `end` pointer and
`errno` are never consulted. -/
def translate_num (str : String) (lower_bound upper_bound : Int) : Option Int :=
  let sig_num := strtol str
  if sig_num < lower_bound ∨ sig_num > upper_bound then none
  else some sig_num

/-- `translate_reg` (src/translate_utils.c:81-102): the literal
`strcmp` chain; -1 for anything not listed. -/
def translate_reg (str : String) : Int :=
  if str = "$zero" then 0
  else if str = "$0" then 0
  else if str = "$at" then 1
  else if str = "$v0" then 2
  else if str = "$a0" then 4
  else if str = "$a1" then 5
  else if str = "$a2" then 6
  else if str = "$a3" then 7
  else if str = "$t0" then 8
  else if str = "$t1" then 9
  else if str = "$t2" then 10
  else if str = "$t3" then 11
  else if str = "$s0" then 16
  else if str = "$s1" then 17
  else if str = "$s2" then 18
  else if str = "$s3" then 19
  else if str = "$sp" then 29
  else if str = "$fp" then 30
  else if str = "$ra" then 31
  else -1

/-- `write_inst_string` (src/translate_utils.c:9-15): the single line
`"<name> <arg> <arg> ...\n"` (the newline is implicit in our one
string per line model). -/
def write_inst_string (name : String) (args : List String) : String :=
  args.foldl (fun acc a => acc ++ " " ++ a) name

/-! ## tables.c -/

structure Symbol where
  name : String
  addr : Nat
deriving DecidableEq, Repr

/-- `SymbolTable`: `tbl`/`len` collapse into one list (`len` is its
length); `cap` is the allocated capacity, `mode` the uniqueness flag. -/
structure SymbolTable where
  tbl : List Symbol
  cap : Nat
  mode : Nat
deriving DecidableEq, Repr

def SYMTBL_NON_UNIQUE : Nat := 0
def SYMTBL_UNIQUE_NAME : Nat := 1
def INITIAL_SIZE : Nat := 5
def SCALING_FACTOR : Nat := 2

/-- `create_table` (src/tables.c:45-59). -/
def create_table (mode : Nat) : SymbolTable :=
  { tbl := [], cap := INITIAL_SIZE, mode := mode }

/-- `add_to_table` (src/tables.c:102-131).  Alignment check, then the
duplicate scan in `SYMTBL_UNIQUE_NAME` mode, then `realloc` doubling
when `len == cap` (realloc preserves the old contents), then append of
a copy of the name.  Returns the C result code and the table. -/
def add_to_table (table : SymbolTable) (name : String) (addr : Nat) :
    Int × SymbolTable :=
  if addr % 4 ≠ 0 then
    (-1, table)
  else if table.mode = SYMTBL_UNIQUE_NAME ∧
      table.tbl.any (fun s => s.name = name) then
    (-1, table)
  else
    let table :=
      if table.tbl.length = table.cap then
        { table with cap := table.cap * SCALING_FACTOR }
      else table
    (0, { table with tbl := table.tbl ++ [⟨name, addr⟩] })

/-- `get_addr_for_symbol` (src/tables.c:136-146): first entry in
insertion order whose name matches, else -1. -/
def get_addr_for_symbol (table : SymbolTable) (name : String) : Int :=
  match table.tbl.find? (fun s => s.name = name) with
  | some s => (s.addr : Int)
  | none => -1

/-! ## translate.c -/

def TWO_POW_SEVENTEEN : Int := 131072

/-- Reduction of an `int` expression to `uint32_t`, as in
`uint32_t instruction = <int expression>;`. -/
def uconv32 (i : Int) : Nat := (i % (2 ^ 32 : Int)).toNat

/-- Reduction mod 2^32 staying in `Int` (value of a `uint32_t`
expression). -/
def wrap32 (i : Int) : Int := i % (2 ^ 32 : Int)

/-- Reinterpretation of a `uint32_t` value as `int32_t` (two's
complement). -/
def toSigned32 (i : Int) : Int :=
  if wrap32 i < 2 ^ 31 then wrap32 i else wrap32 i - 2 ^ 32

/-- `write_pass_one` (src/translate.c:44-102), given non-NULL `name`
and argument array.  Returns (lines written, count returned).  For
`li` the result of `translate_num(&imm, args[1], LONG_MIN, LONG_MAX)`
is discarded by the C code; with those bounds it always succeeds and
stores `strtol(args[1])`, which is what we inline.  In the `lui`/`ori`
branch `imm >= 65536`, so printing the signed `imm>>16` and
`imm & 0xFFFF` is division and remainder by 2^16 on `imm.toNat`. -/
def write_pass_one (name : String) (args : List String) :
    List String × Nat :=
  if name = "li" then
    match args with
    | [rd, immStr] =>
      let imm := strtol immStr
      if imm < 65536 then
        (["addiu " ++ rd ++ " $0 " ++ immStr], 1)
      else
        let u := imm.toNat
        (["lui $at " ++ toString (u / 2 ^ 16),
          "ori " ++ rd ++ " $at " ++ toString (u % 2 ^ 16)], 2)
    | _ => ([], 0)
  else if name = "push" then
    match args with
    | [r] => (["addiu $sp $sp -4", "sw " ++ r ++ " 0($sp)"], 2)
    | _ => ([], 0)
  else if name = "pop" then
    match args with
    | [r] => (["lw " ++ r ++ " 0($sp)", "addiu $sp $sp 4"], 2)
    | _ => ([], 0)
  else if name = "mod" then
    match args with
    | [rd, rs, rt] => (["div " ++ rs ++ " " ++ rt, "mfhi " ++ rd], 2)
    | _ => ([], 0)
  else if name = "subu" then
    match args with
    | [rd, rs, rt] =>
      (["addiu $at $0 -1", "xor $at $at " ++ rt, "addiu $at $at 1",
        "addu " ++ rd ++ " " ++ rs ++ " $at"], 4)
    | _ => ([], 0)
  else
    ([write_inst_string name args], 1)

/-- `write_jr` (src/translate.c:228-241).  Note the source calls
`write_inst_hex` BEFORE testing `rs == -1`: the word (computed from
the sentinel -1 with two's-complement shift semantics) is written even
when the register is invalid. -/
def write_jr (funct : Nat) (args : List String) : Int × List Nat :=
  match args with
  | [a0] =>
    let rs := translate_reg a0
    let instruction := uconv32 ((funct : Int) + rs * 2 ^ 21)
    if rs = -1 then (-1, [instruction]) else (0, [instruction])
  | _ => (-1, [])

/-- `can_branch_to` (src/translate.c:380-383): `int32_t diff =
dest_addr - src_addr` (uint32 subtraction reinterpreted as int32). -/
def can_branch_to (src_addr dest_addr : Nat) : Bool :=
  let diff := toSigned32 ((dest_addr : Int) - (src_addr : Int))
  decide ((0 ≤ diff ∧ diff ≤ TWO_POW_SEVENTEEN) ∨
    (diff < 0 ∧ -(TWO_POW_SEVENTEEN - 4) ≤ diff))

/-- `write_branch` (src/translate.c:386-408).  `label_addr - addr - 4`
is computed in `unsigned int` (`addr` is `uint32_t`), divided by 4
unsigned, and only the low 16 bits of the resulting `int32_t` survive
the `& 0xffff` mask.  `rt`/`rs` participate as `int` in the sum that
is converted to `uint32_t`. -/
def write_branch (opcode : Nat) (args : List String) (addr : Nat)
    (symtbl : SymbolTable) : Int × List Nat :=
  match args with
  | [a0, a1, a2] =>
    let rs := translate_reg a0
    let rt := translate_reg a1
    let label_addr := get_addr_for_symbol symtbl a2
    if label_addr = -1 ∨ can_branch_to addr label_addr.toNat = false ∨
        rt = -1 ∨ rs = -1 then
      (-1, [])
    else
      let offset_u : Nat := (wrap32 (label_addr - (addr : Int) - 4)).toNat / 4
      let low16 : Nat := offset_u % 2 ^ 16
      let instruction :=
        uconv32 ((low16 : Int) + rt * 2 ^ 16 + rs * 2 ^ 21 +
          (opcode : Int) * 2 ^ 26)
      (0, [instruction])
  | _ => (-1, [])

/-- `write_jump` (src/translate.c:410-418).  The result of
`add_to_table` is discarded; the instruction word is written and 0
returned regardless. -/
def write_jump (opcode : Nat) (args : List String) (addr : Nat)
    (reltbl : SymbolTable) : (Int × List Nat) × SymbolTable :=
  match args with
  | [a0] =>
    let r := add_to_table reltbl a0 addr
    ((0, [uconv32 ((opcode : Int) * 2 ^ 26)]), r.2)
  | _ => ((-1, []), reltbl)

/-- Fold `add_to_table` over a list of (name, addr) pairs, failing if
any single insertion reports -1 (driver-style use of the table API;
needed to state the growth claims). -/
def addAll : SymbolTable → List (String × Nat) → Option SymbolTable
  | t, [] => some t
  | t, p :: rest =>
    let r := add_to_table t p.1 p.2
    if r.1 = 0 then addAll r.2 rest else none

/-- The register spellings accepted by `translate_reg` and their
register numbers, read off the `strcmp` chain of
src/translate_utils.c:81-102 in source order. -/
def regAssoc : List (String × Int) :=
  [("$zero", 0), ("$0", 0), ("$at", 1), ("$v0", 2),
   ("$a0", 4), ("$a1", 5), ("$a2", 6), ("$a3", 7),
   ("$t0", 8), ("$t1", 9), ("$t2", 10), ("$t3", 11),
   ("$s0", 16), ("$s1", 17), ("$s2", 18), ("$s3", 19),
   ("$sp", 29), ("$fp", 30), ("$ra", 31)]

/-! ## Helper lemmas -/

/-- Successful insertion: aligned address and, in unique-name mode,
name not already present. -/
lemma add_to_table_ok (t : SymbolTable) (name : String) (addr : Nat)
    (h4 : addr % 4 = 0)
    (hdup : t.mode = SYMTBL_UNIQUE_NAME → ∀ s ∈ t.tbl, s.name ≠ name) :
    (add_to_table t name addr).1 = 0 ∧
    (add_to_table t name addr).2.tbl = t.tbl ++ [⟨name, addr⟩] ∧
    t.cap ≤ (add_to_table t name addr).2.cap ∧
    (add_to_table t name addr).2.mode = t.mode := by
  have hc : ¬ (t.mode = SYMTBL_UNIQUE_NAME ∧
      t.tbl.any (fun s => s.name = name) = true) := by
    rintro ⟨hm, hany⟩
    rw [List.any_eq_true] at hany
    obtain ⟨s, hs, hn⟩ := hany
    exact hdup hm s hs (by simpa using hn)
  unfold add_to_table
  rw [if_neg (by omega : ¬ addr % 4 ≠ 0), if_neg hc]
  by_cases hfull : t.tbl.length = t.cap
  · simp [if_pos hfull, SCALING_FACTOR]
    all_goals omega
  · simp [if_neg hfull]

/-- `find?` returns the first entry (by index) whose name matches. -/
lemma find?_first_name (name : String) :
    ∀ (l : List Symbol) (i : Nat) (hi : i < l.length),
      (l.get ⟨i, hi⟩).name = name →
      (∀ (j : Nat) (hj : j < i), (l.get ⟨j, Nat.lt_trans hj hi⟩).name ≠ name) →
      l.find? (fun s => s.name = name) = some (l.get ⟨i, hi⟩)
  | [], i, hi, _, _ => absurd hi (by simp)
  | s :: tl, 0, _, hname, _ => by
    simpa using List.find?_cons_of_pos (p := fun s => s.name = name) tl
      (by simpa using hname)
  | s :: tl, i + 1, hi, hname, hfirst => by
    have h0 : s.name ≠ name := by simpa using hfirst 0 (Nat.succ_pos i)
    rw [List.find?_cons_of_neg _ (by simpa using h0)]
    exact find?_first_name name tl i (Nat.lt_of_succ_lt_succ hi)
      (by simpa using hname)
      (fun j hj => by simpa using hfirst (j + 1) (Nat.succ_lt_succ hj))

/-- In a list of symbols with pairwise distinct names, `find?` locates
each member. -/
lemma find?_map_of_nodup :
    ∀ (l : List Symbol), (l.map Symbol.name).Nodup →
      ∀ s ∈ l, l.find? (fun x => x.name = s.name) = some s := by
  intro l
  induction l with
  | nil => simp
  | cons a tl ih =>
    intro hnd s hs
    rw [List.map_cons] at hnd
    have hnd' := List.nodup_cons.mp hnd
    rcases List.mem_cons.mp hs with rfl | hs
    · exact List.find?_cons_of_pos _ (by simp)
    · have hne : a.name ≠ s.name := by
        intro h
        exact hnd'.1 (h ▸ List.mem_map_of_mem Symbol.name hs)
      rw [List.find?_cons_of_neg _ (by simpa using hne)]
      exact ih hnd'.2 s hs

/-- Driver-style bulk insertion into a table succeeds and appends in
order when all addresses are aligned and all names are fresh. -/
lemma addAll_spec (ps : List (String × Nat)) :
    ∀ t : SymbolTable,
      (∀ p ∈ ps, p.2 % 4 = 0) →
      (t.tbl.map Symbol.name ++ ps.map Prod.fst).Nodup →
      ∃ t', addAll t ps = some t' ∧
        t'.tbl = t.tbl ++ ps.map (fun p => ⟨p.1, p.2⟩) ∧
        t.cap ≤ t'.cap ∧ t'.mode = t.mode := by
  induction ps with
  | nil =>
    intro t _ _
    exact ⟨t, rfl, by simp, Nat.le_refl _, rfl⟩
  | cons p rest ih =>
    intro t hal hnd
    have hp4 : p.2 % 4 = 0 := hal p (List.mem_cons_self _ _)
    have hfresh : ∀ s ∈ t.tbl, s.name ≠ p.1 := by
      intro s hs heq
      have hdis := (List.nodup_append.mp hnd).2.2
      exact hdis (heq ▸ List.mem_map_of_mem Symbol.name hs) (by simp)
    obtain ⟨hr0, htbl, hcap, hmode⟩ := add_to_table_ok t p.1 p.2 hp4 (fun _ => hfresh)
    have step : addAll t (p :: rest) = addAll (add_to_table t p.1 p.2).2 rest := by
      simp [addAll, hr0]
    have hnd1 : ((add_to_table t p.1 p.2).2.tbl.map Symbol.name ++
        rest.map Prod.fst).Nodup := by
      rw [htbl]
      simpa [List.append_assoc] using hnd
    obtain ⟨t', h1, h2, h3, h4⟩ :=
      ih (add_to_table t p.1 p.2).2 (fun q hq => hal q (List.mem_cons_of_mem _ hq)) hnd1
    refine ⟨t', step ▸ h1, ?_, Nat.le_trans hcap h3, h4.trans hmode⟩
    rw [h2, htbl]
    simp [List.append_assoc]

/-- The `strcmp` chain of `translate_reg` agrees with `regAssoc` on
every listed spelling. -/
lemma regAssoc_apply : ∀ p ∈ regAssoc, translate_reg p.1 = p.2 := by decide

/-- Every register number in `regAssoc` lies in [0, 31]. -/
lemma regAssoc_snd_bound : ∀ p ∈ regAssoc, 0 ≤ p.2 ∧ p.2 ≤ 31 := by decide

/-- Any token that is not one of the listed spellings fails to resolve
(the `strcmp` chain falls through to -1). -/
lemma translate_reg_not_mem (s : String) (h : s ∉ regAssoc.map Prod.fst) :
    translate_reg s = -1 := by
  have hne : ∀ r : String, r ∈ regAssoc.map Prod.fst → s ≠ r :=
    fun r hr e => h (e ▸ hr)
  unfold translate_reg
  rw [if_neg (hne "$zero" (by decide)), if_neg (hne "$0" (by decide)),
    if_neg (hne "$at" (by decide)), if_neg (hne "$v0" (by decide)),
    if_neg (hne "$a0" (by decide)), if_neg (hne "$a1" (by decide)),
    if_neg (hne "$a2" (by decide)), if_neg (hne "$a3" (by decide)),
    if_neg (hne "$t0" (by decide)), if_neg (hne "$t1" (by decide)),
    if_neg (hne "$t2" (by decide)), if_neg (hne "$t3" (by decide)),
    if_neg (hne "$s0" (by decide)), if_neg (hne "$s1" (by decide)),
    if_neg (hne "$s2" (by decide)), if_neg (hne "$s3" (by decide)),
    if_neg (hne "$sp" (by decide)), if_neg (hne "$fp" (by decide)),
    if_neg (hne "$ra" (by decide))]

/-- Every register number produced by `translate_reg` lies in [0, 31]
(or is the failure sentinel -1). -/
lemma translate_reg_range (s : String) :
    translate_reg s = -1 ∨ (0 ≤ translate_reg s ∧ translate_reg s ≤ 31) := by
  by_cases hs : s ∈ regAssoc.map Prod.fst
  · obtain ⟨p, hp, heq⟩ := List.mem_map.mp hs
    right
    rw [← heq, regAssoc_apply p hp]
    exact regAssoc_snd_bound p hp
  · exact Or.inl (translate_reg_not_mem s hs)

/-! ## Claim theorems -/

/-- Placing a field above bit `n` next to a value below `2^n` is the
same by addition and by bitwise or. -/
lemma lor_eq_add_of_lt (x y n : Nat) (h : y < 2 ^ n) :
    x * 2 ^ n + y = x * 2 ^ n ||| y := by
  have hh := Nat.mul_add_lt_is_or h x
  rw [Nat.mul_comm] at hh
  exact hh

/-- The four MIPS I-type fields (16-bit immediate, rt at bit 16, rs at
bit 21, opcode at bit 26) compose identically by addition and by
bitwise or. -/
lemma fields_or (L b a c : Nat) (hL : L < 2 ^ 16) (hb : b ≤ 31)
    (ha : a ≤ 31) :
    L + b * 2 ^ 16 + a * 2 ^ 21 + c * 2 ^ 26 =
      L ||| b <<< 16 ||| a <<< 21 ||| c <<< 26 := by
  have h1 : b * 2 ^ 16 + L = b * 2 ^ 16 ||| L := lor_eq_add_of_lt b L 16 hL
  have hin1 : b * 2 ^ 16 + L < 2 ^ 21 := by omega
  have h2 : a * 2 ^ 21 + (b * 2 ^ 16 + L) = a * 2 ^ 21 ||| (b * 2 ^ 16 + L) :=
    lor_eq_add_of_lt a _ 21 hin1
  have hin2 : a * 2 ^ 21 + (b * 2 ^ 16 + L) < 2 ^ 26 := by omega
  have h3 : c * 2 ^ 26 + (a * 2 ^ 21 + (b * 2 ^ 16 + L)) =
      c * 2 ^ 26 ||| (a * 2 ^ 21 + (b * 2 ^ 16 + L)) :=
    lor_eq_add_of_lt c _ 26 hin2
  calc L + b * 2 ^ 16 + a * 2 ^ 21 + c * 2 ^ 26
      = c * 2 ^ 26 + (a * 2 ^ 21 + (b * 2 ^ 16 + L)) := by ring
    _ = c * 2 ^ 26 ||| (a * 2 ^ 21 + (b * 2 ^ 16 + L)) := h3
    _ = c * 2 ^ 26 ||| (a * 2 ^ 21 ||| (b * 2 ^ 16 + L)) := by rw [h2]
    _ = c * 2 ^ 26 ||| (a * 2 ^ 21 ||| (b * 2 ^ 16 ||| L)) := by rw [h1]
    _ = L ||| b <<< 16 ||| a <<< 21 ||| c <<< 26 := by
        rw [Nat.shiftLeft_eq, Nat.shiftLeft_eq, Nat.shiftLeft_eq]
        rw [Nat.lor_comm (c * 2 ^ 26), Nat.lor_comm (a * 2 ^ 21),
          Nat.lor_comm (b * 2 ^ 16)]

/-- The reachability test of `can_branch_to`, phrased on the
mathematical difference, for addresses below 2^31 (where the int32
reinterpretation is lossless). -/
lemma can_branch_to_iff (src dest : Nat) (hs : src < 2 ^ 31)
    (hd : dest < 2 ^ 31) :
    can_branch_to src dest = true ↔
      ((0 ≤ (dest : Int) - src ∧ (dest : Int) - src ≤ 131072) ∨
        (-131068 ≤ (dest : Int) - src ∧ (dest : Int) - src < 0)) := by
  simp only [can_branch_to, toSigned32, wrap32, TWO_POW_SEVENTEEN,
    decide_eq_true_eq]
  split_ifs with h
  · omega
  · omega

/-- C5: `add_to_table` fails with MisalignedAddress when `addr % 4 ≠ 0`
leaving the table unchanged; fails with DuplicateName when the mode is
`SYMTBL_UNIQUE_NAME` and the name is already present, leaving the table
unchanged; otherwise appends an entry holding a copy of the name with
the address and returns success (0). -/
theorem add_to_table_contract (t : SymbolTable) (name : String) (addr : Nat) :
    (addr % 4 ≠ 0 → add_to_table t name addr = (-1, t)) ∧
    (addr % 4 = 0 → t.mode = SYMTBL_UNIQUE_NAME →
      (∃ s ∈ t.tbl, s.name = name) → add_to_table t name addr = (-1, t)) ∧
    (addr % 4 = 0 → (t.mode = SYMTBL_UNIQUE_NAME → ∀ s ∈ t.tbl, s.name ≠ name) →
      (add_to_table t name addr).1 = 0 ∧
      (add_to_table t name addr).2.tbl = t.tbl ++ [⟨name, addr⟩]) := by
  refine ⟨?_, ?_, ?_⟩
  · intro h
    simp [add_to_table, h]
  · rintro h4 hm ⟨s, hs, hn⟩
    have hany : t.tbl.any (fun x => x.name = name) = true := by
      rw [List.any_eq_true]
      exact ⟨s, hs, by simpa using hn⟩
    unfold add_to_table
    rw [if_neg (by omega : ¬ addr % 4 ≠ 0), if_pos ⟨hm, hany⟩]
  · intro h4 hdup
    exact ⟨(add_to_table_ok t name addr h4 hdup).1,
      (add_to_table_ok t name addr h4 hdup).2.1⟩

/-- Witness for C5: a misaligned insertion (addr 6) fails and leaves a
fresh unique table unchanged; inserting a duplicate name into a unique
table fails unchanged; a fresh name with an aligned address is
appended. -/
theorem add_to_table_contract_witness :
    add_to_table (create_table SYMTBL_UNIQUE_NAME) "a" 6 =
      (-1, create_table SYMTBL_UNIQUE_NAME) ∧
    add_to_table ⟨[⟨"a", 0⟩], 5, SYMTBL_UNIQUE_NAME⟩ "a" 4 =
      (-1, ⟨[⟨"a", 0⟩], 5, SYMTBL_UNIQUE_NAME⟩) ∧
    (add_to_table ⟨[⟨"a", 0⟩], 5, SYMTBL_UNIQUE_NAME⟩ "b" 4).2.tbl =
      [⟨"a", 0⟩, ⟨"b", 4⟩] := by
  refine ⟨(add_to_table_contract _ "a" 6).1 (by decide),
    (add_to_table_contract _ "a" 4).2.1 (by decide) rfl ⟨⟨"a", 0⟩, by simp, rfl⟩, ?_⟩
  have h := (add_to_table_contract ⟨[⟨"a", 0⟩], 5, SYMTBL_UNIQUE_NAME⟩ "b" 4).2.2
    (by decide) (fun _ s hs => by simp at hs; subst hs; decide)
  simpa using h.2

/-- C6: tables are created with capacity `INITIAL_SIZE = 5`; the
backing storage grows by doubling exactly when full and never shrinks,
each insertion preserving the existing entries and their order; bulk
insertion of any number of aligned fresh-named entries (in particular
6 or more, exceeding the initial capacity) succeeds, yields exactly
the inserted entries in insertion order, and every inserted name is
still looked up to its address afterwards. -/
theorem table_growth_preserves_entries :
    (∀ (u : SymbolTable) (n : String) (a : Nat),
      u.cap ≤ (add_to_table u n a).2.cap ∧
      ((add_to_table u n a).2.cap = u.cap ∨
        (u.tbl.length = u.cap ∧ (add_to_table u n a).2.cap = 2 * u.cap)) ∧
      ((add_to_table u n a).2.tbl = u.tbl ∨
        (add_to_table u n a).2.tbl = u.tbl ++ [⟨n, a⟩])) ∧
    (∀ (mode : Nat) (ps : List (String × Nat)),
      (∀ p ∈ ps, p.2 % 4 = 0) → (ps.map Prod.fst).Nodup →
      ∃ t, addAll (create_table mode) ps = some t ∧
        t.tbl = ps.map (fun p => ⟨p.1, p.2⟩) ∧
        (create_table mode).cap = INITIAL_SIZE ∧ INITIAL_SIZE ≤ t.cap ∧
        ∀ p ∈ ps, get_addr_for_symbol t p.1 = (p.2 : Int)) := by
  refine ⟨?_, ?_⟩
  · intro u n a
    unfold add_to_table
    split_ifs with h1 h2 h3 <;> (simp [SCALING_FACTOR]; try omega)
  · intro mode ps hal hnd
    obtain ⟨t, h1, h2, h3, _⟩ :=
      addAll_spec ps (create_table mode) hal (by simpa [create_table] using hnd)
    have h2' : t.tbl = ps.map (fun p => ⟨p.1, p.2⟩) := by
      simpa [create_table] using h2
    refine ⟨t, h1, h2', rfl, by simpa [create_table] using h3, ?_⟩
    intro p hp
    have hfind := find?_map_of_nodup (ps.map fun q => (⟨q.1, q.2⟩ : Symbol))
      (by simpa [List.map_map, Function.comp] using hnd)
      ⟨p.1, p.2⟩ (List.mem_map_of_mem _ hp)
    dsimp only at hfind
    unfold get_addr_for_symbol
    rw [h2', hfind]

/-- Witness for C6: six aligned distinct entries (one more than the
initial capacity 5) are all inserted successfully. -/
theorem table_growth_witness :
    (addAll (create_table SYMTBL_UNIQUE_NAME)
      [("a", 0), ("b", 4), ("c", 8), ("d", 12), ("e", 16), ("f", 20)]).isSome = true := by
  obtain ⟨t, h1, -, -, -, -⟩ := table_growth_preserves_entries.2 SYMTBL_UNIQUE_NAME
    [("a", 0), ("b", 4), ("c", 8), ("d", 12), ("e", 16), ("f", 20)]
    (by decide) (by decide)
  rw [h1]
  rfl

/-- C7: `get_addr_for_symbol` returns the address of the first entry
in insertion order whose name matches, and -1 (NotFound) when no entry
matches; any (name, addr) with `addr % 4 = 0` inserted into a fresh
table is looked up to `addr`; in a NonUnique table only the first of
several entries sharing a name is visible through lookup. -/
theorem lookup_first_match (t : SymbolTable) (name : String) :
    ((∀ s ∈ t.tbl, s.name ≠ name) → get_addr_for_symbol t name = -1) ∧
    (∀ (i : Nat) (hi : i < t.tbl.length),
      (t.tbl.get ⟨i, hi⟩).name = name →
      (∀ (j : Nat) (hj : j < i), (t.tbl.get ⟨j, Nat.lt_trans hj hi⟩).name ≠ name) →
      get_addr_for_symbol t name = ((t.tbl.get ⟨i, hi⟩).addr : Int)) ∧
    (∀ (mode addr : Nat), addr % 4 = 0 →
      get_addr_for_symbol (add_to_table (create_table mode) name addr).2 name
        = (addr : Int)) ∧
    (∀ (a1 a2 : Nat), a1 % 4 = 0 → a2 % 4 = 0 →
      get_addr_for_symbol
        (add_to_table (add_to_table (create_table SYMTBL_NON_UNIQUE) name a1).2
          name a2).2 name = (a1 : Int)) := by
  refine ⟨?_, ?_, ?_, ?_⟩
  · intro h
    unfold get_addr_for_symbol
    rw [List.find?_eq_none.mpr (fun x hx => by simpa using h x hx)]
  · intro i hi hname hfirst
    unfold get_addr_for_symbol
    rw [find?_first_name name t.tbl i hi hname hfirst]
  · intro mode addr h4
    have hok := add_to_table_ok (create_table mode) name addr h4
      (fun _ s hs => by simp [create_table] at hs)
    unfold get_addr_for_symbol
    rw [hok.2.1]
    simp [create_table]
  · intro a1 a2 ha1 ha2
    have hok1 := add_to_table_ok (create_table SYMTBL_NON_UNIQUE) name a1 ha1
      (fun _ s hs => by simp [create_table] at hs)
    have hok2 := add_to_table_ok
      (add_to_table (create_table SYMTBL_NON_UNIQUE) name a1).2 name a2 ha2
      (fun hm => absurd ((hok1.2.2.2).symm.trans hm) (by decide))
    unfold get_addr_for_symbol
    rw [hok2.2.1, hok1.2.1]
    simp [create_table]

/-- Witness for C7: in a NonUnique table holding ("x", 4) then ("x", 8),
lookup of "x" returns 4, the first insertion. -/
theorem lookup_first_match_witness :
    get_addr_for_symbol
      (add_to_table (add_to_table (create_table SYMTBL_NON_UNIQUE) "x" 4).2
        "x" 8).2 "x" = 4 :=
  (lookup_first_match (create_table SYMTBL_NON_UNIQUE) "x").2.2.2 4 8
    (by decide) (by decide)

/-- C9 (amended): `translate_reg` maps exactly the 19 spellings of
`regAssoc` to their register numbers and returns -1 (InvalidRegister)
for every other token. -/
theorem register_table :
    (∀ p ∈ regAssoc, translate_reg p.1 = p.2) ∧
    (∀ s : String, s ∉ regAssoc.map Prod.fst → translate_reg s = -1) ∧
    regAssoc.length = 19 := by
  exact ⟨regAssoc_apply, fun s hs => translate_reg_not_mem s hs, by decide⟩

/-- C9 counterexample: the canonical spellings accepted by
`translate_reg` number 19, not 22 — the 19 listed spellings are
pairwise distinct and map exactly as listed, while further canonical
MIPS register names are rejected. -/
theorem register_count_counterexample :
    (regAssoc.map Prod.fst).length = 19 ∧ (regAssoc.map Prod.fst).Nodup ∧
    (regAssoc.map fun p => translate_reg p.1) = regAssoc.map Prod.snd ∧
    translate_reg "$v1" = -1 ∧ translate_reg "$gp" = -1 ∧
    translate_reg "$k0" = -1 ∧ translate_reg "$t4" = -1 := by decide

/-- Witness for C9: a listed spelling resolves to its number and an
unlisted token fails. -/
theorem register_table_witness :
    translate_reg "$sp" = 29 ∧ translate_reg "$q9" = -1 :=
  ⟨register_table.1 ("$sp", 29) (by decide),
   register_table.2.1 "$q9" (by decide)⟩

/-- C2 (violation): `write_jr` calls `write_inst_hex` before testing
`rs == -1`, so on an unresolvable register operand it reports failure
(-1) but has already written a word (0xffe00008, from the sentinel -1
entering the shift) — partial output for a failing instruction. -/
theorem write_jr_partial_output :
    (write_jr 8 ["$t4"]).1 = -1 ∧ (write_jr 8 ["$t4"]).2 ≠ [] ∧
    (write_jr 8 ["$t4"]).2 = [4292870152] := by decide

/-- C3 (violation): `write_pass_one` never checks that `li`'s
immediate is representable in 32 bits: 4294967296 = 2^32 is accepted
and expanded into a lui/ori pair with count 2 instead of being
rejected with count 0. -/
theorem li_missing_range_check :
    write_pass_one "li" ["$t0", "4294967296"] =
      (["lui $at 65536", "ori $t0 $at 0"], 2) ∧
    strtol "4294967296" = 4294967296 := by decide

/-- C8 (violation): `translate_num` ignores `strtol`'s end pointer, so
a token with no digits parses as 0 and is accepted whenever 0 lies in
the bounds, and trailing garbage is silently dropped; only the bounds
check can fail. -/
theorem translate_num_accepts_malformed :
    translate_num "abc" (-10) 10 = some 0 ∧
    translate_num "12xyz" 0 100 = some 12 ∧
    translate_num "40000" (-32768) 32767 = none := by decide

/-- C4: for a jump with exactly one argument, an aligned instruction
address and a NonUnique relocation table, `write_jump` appends
(label, addr) to the relocation table and writes `opcode<<26`, whose
26-bit target field is zero. -/
theorem jump_encoding (opcode : Nat) (label : String) (addr : Nat)
    (reltbl : SymbolTable) (hop : opcode = 2 ∨ opcode = 3)
    (hmode : reltbl.mode = SYMTBL_NON_UNIQUE) (hal : addr % 4 = 0) :
    (write_jump opcode [label] addr reltbl).1 = ((0 : Int), [opcode <<< 26]) ∧
    (write_jump opcode [label] addr reltbl).2.tbl =
      reltbl.tbl ++ [⟨label, addr⟩] ∧
    opcode <<< 26 % 2 ^ 26 = 0 := by
  have hok := add_to_table_ok reltbl label addr hal
    (fun hm => absurd (hmode.symm.trans hm) (by decide))
  refine ⟨?_, ?_, ?_⟩
  · unfold write_jump
    dsimp only
    rcases hop with rfl | rfl <;> decide
  · unfold write_jump
    dsimp only
    exact hok.2.1
  · rcases hop with rfl | rfl <;> decide

/-- Witness for C4: `j label` at address 12 on a fresh relocation
table writes 0x08000000 and appends ("label", 12). -/
theorem jump_encoding_witness :
    (write_jump 2 ["label"] 12 (create_table SYMTBL_NON_UNIQUE)).1 =
      (0, [134217728]) ∧
    (write_jump 2 ["label"] 12 (create_table SYMTBL_NON_UNIQUE)).2.tbl =
      [⟨"label", 12⟩] := by
  have h := jump_encoding 2 "label" 12 (create_table SYMTBL_NON_UNIQUE)
    (Or.inl rfl) rfl (by decide)
  exact ⟨h.1.trans (by decide), (h.2.1).trans (by decide)⟩

/-- C10: `write_jump` discards the result of `add_to_table`: at the
non-word-aligned address 13 the relocation append fails with -1 and
leaves the table unchanged, yet `write_jump` still writes `opcode<<26`
(0x08000000) and returns success. -/
theorem write_jump_ignores_add_failure :
    (add_to_table (create_table SYMTBL_NON_UNIQUE) "lbl" 13).1 = -1 ∧
    (add_to_table (create_table SYMTBL_NON_UNIQUE) "lbl" 13).2 =
      create_table SYMTBL_NON_UNIQUE ∧
    write_jump 2 ["lbl"] 13 (create_table SYMTBL_NON_UNIQUE) =
      ((0, [134217728]), create_table SYMTBL_NON_UNIQUE) := by decide

/-- C1: for a branch (`beq` opcode 4 / `bne` opcode 5) with valid
register operands at a word-aligned address, `write_branch` fails
(UndefinedSymbol) writing nothing when the label is absent from the
table; with the label bound to a word-aligned target it fails
(UnreachableBranchTarget) writing nothing unless
`0 <= target - addr <= 131072` or `-131068 <= target - addr < 0`, and
otherwise writes the single word
`(offset & 0xFFFF) | rt<<16 | rs<<21 | opcode<<26` with
`offset = (target - addr - 4) / 4`. -/
theorem branch_encoding (opcode : Nat) (rsArg rtArg label : String)
    (addr : Nat) (symtbl : SymbolTable)
    (hop : opcode = 4 ∨ opcode = 5)
    (hrs : translate_reg rsArg ≠ -1) (hrt : translate_reg rtArg ≠ -1)
    (ha4 : addr % 4 = 0) (halt : addr < 2 ^ 31) :
    (get_addr_for_symbol symtbl label = -1 →
      write_branch opcode [rsArg, rtArg, label] addr symtbl = (-1, [])) ∧
    (∀ target : Nat, get_addr_for_symbol symtbl label = (target : Int) →
      target % 4 = 0 → target < 2 ^ 31 →
      (¬ ((0 ≤ (target : Int) - addr ∧ (target : Int) - addr ≤ 131072) ∨
          (-131068 ≤ (target : Int) - addr ∧ (target : Int) - addr < 0)) →
        write_branch opcode [rsArg, rtArg, label] addr symtbl = (-1, [])) ∧
      (((0 ≤ (target : Int) - addr ∧ (target : Int) - addr ≤ 131072) ∨
          (-131068 ≤ (target : Int) - addr ∧ (target : Int) - addr < 0)) →
        write_branch opcode [rsArg, rtArg, label] addr symtbl =
          ((0 : Int), [(((target : Int) - addr - 4) / 4 % 2 ^ 16).toNat |||
            (translate_reg rtArg).toNat <<< 16 |||
            (translate_reg rsArg).toNat <<< 21 ||| opcode <<< 26]))) := by
  have hoc : opcode ≤ 63 := by rcases hop with rfl | rfl <;> norm_num
  constructor
  · intro h
    simp only [write_branch]
    rw [if_pos (Or.inl h)]
  · intro target heq h4 hlt
    constructor
    · intro hcond
      have hcbf : can_branch_to addr (get_addr_for_symbol symtbl label).toNat
          = false := by
        rw [heq, Int.toNat_natCast]
        cases hb : can_branch_to addr target
        · rfl
        · exact absurd ((can_branch_to_iff addr target halt hlt).mp hb) hcond
      simp only [write_branch]
      rw [if_pos (Or.inr (Or.inl hcbf))]
    · intro hcond
      have hrsb : 0 ≤ translate_reg rsArg ∧ translate_reg rsArg ≤ 31 :=
        (translate_reg_range rsArg).resolve_left hrs
      have hrtb : 0 ≤ translate_reg rtArg ∧ translate_reg rtArg ≤ 31 :=
        (translate_reg_range rtArg).resolve_left hrt
      have hcb : can_branch_to addr (get_addr_for_symbol symtbl label).toNat
          = true := by
        rw [heq, Int.toNat_natCast]
        exact (can_branch_to_iff addr target halt hlt).mpr hcond
      have hne : get_addr_for_symbol symtbl label ≠ -1 := by
        rw [heq]
        omega
      simp only [write_branch]
      rw [if_neg ?hno]
      case hno =>
        rintro (h1 | h2 | h3 | h4')
        · exact hne h1
        · rw [hcb] at h2
          exact absurd h2 (by simp)
        · exact hrt h3
        · exact hrs h4'
      rw [heq]
      refine congrArg (Prod.mk (0 : Int)) (congrArg (fun w => [w]) ?_)
      refine Eq.trans ?_ (fields_or (((target : Int) - addr - 4) / 4 % 2 ^ 16).toNat
        (translate_reg rtArg).toNat (translate_reg rsArg).toNat opcode
        (by omega) (by omega) (by omega))
      unfold uconv32 wrap32
      omega

/-- Witness for C1: `beq $t0 $t1 label` at address 0 with label bound
to 8 encodes the word 0x11090001 = 285802497: offset 1 in the low 16
bits, opcode 4 in bits 31-26. -/
theorem branch_encoding_witness :
    write_branch 4 ["$t0", "$t1", "label"] 0
      (add_to_table (create_table SYMTBL_UNIQUE_NAME) "label" 8).2 =
      (0, [285802497]) ∧ 285802497 % 2 ^ 16 = 1 ∧
    285802497 / 2 ^ 26 = 4 := by
  have h := branch_encoding 4 "$t0" "$t1" "label" 0
    (add_to_table (create_table SYMTBL_UNIQUE_NAME) "label" 8).2
    (Or.inl rfl) (by decide) (by decide) (by decide) (by decide)
  have h2 := (h.2 8 (by decide) (by decide) (by decide)).2 (by decide)
  exact ⟨h2.trans (by decide), by decide, by decide⟩

end Asm
